import Mathlib

/-!
Verification of the URL-validation / link-repair pipeline and the
retry/backoff wrapper of the nyhetssammanfattning repository.

The Python sources `src/url_validator.py` and `src/utils/retry.py` are
shallowly embedded below: the network (an aiohttp session together with the
surrounding event loop) is abstracted as a deterministic `Transport`
function from a URL to the observable outcome of its probe, news items
(Python dicts) become an explicit record of optional fields, Python dicts
keyed by URL become association lists with overwrite-insert, and the retry
decorator becomes a fuel-indexed recursion that additionally records the
number of invocations and the callback/sleep events it performs.
-/

namespace Nyhets

/-- Substring test on character lists: does the list start with the pattern?
Mirrors the prefix comparison underlying the Python `in` operator. -/
def leadsWith : List Char → List Char → Bool
  | _, [] => true
  | [], _ :: _ => false
  | c :: cs, p :: ps => c == p && leadsWith cs ps

/-- Does `pat` occur as a contiguous run inside `hay`?  (Python `pat in hay`
for strings, modelled on the character lists.) -/
def containsL : List Char → List Char → Bool
  | [], pat => leadsWith [] pat
  | c :: cs, pat => leadsWith (c :: cs) pat || containsL cs pat

/-- Python `pat in hay` on strings. -/
def strContains (hay pat : String) : Bool :=
  containsL hay.data pat.data

/-- Python `s.startswith(p)` for one prefix. -/
def strStartsWith (s p : String) : Bool :=
  leadsWith s.data p.data

/-- Python `s.lower()` (character-wise lowercasing). -/
def strToLower (s : String) : String :=
  String.mk (s.data.map Char.toLower)

/-- Python slicing `s[:n]` (first `n` characters). -/
def strTake (s : String) (n : Nat) : String :=
  String.mk (s.data.take n)

/-- Uppercase hexadecimal digit, as produced by `urllib.parse.quote`. -/
def hexUpper (n : Nat) : Char :=
  if n < 10 then Char.ofNat (48 + n) else Char.ofNat (55 + n)

/-- UTF-8 byte sequence of one character (as `Nat`s below 256). -/
def utf8Bytes (c : Char) : List Nat :=
  let n := c.toNat
  if n < 128 then [n]
  else if n < 2048 then [192 + n / 64, 128 + n % 64]
  else if n < 65536 then [224 + n / 4096, 128 + n / 64 % 64, 128 + n % 64]
  else [240 + n / 262144, 128 + n / 4096 % 64, 128 + n / 64 % 64, 128 + n % 64]

/-- Characters `urllib.parse.quote` leaves unescaped with its default
`safe` argument: ASCII alphanumerics, `_.-~` and `/`. -/
def quoteSafe (c : Char) : Bool :=
  c.isAlpha || c.isDigit || c == '_' || c == '.' || c == '-' || c == '~' || c == '/'

/-- Percent-encoding of one byte, uppercase hex. -/
def pctByte (b : Nat) : String :=
  String.mk ['%', hexUpper (b / 16), hexUpper (b % 16)]

/-- Percent-encoding `urllib.parse.quote` with its default `safe` set, as used by
`create_google_search_url`. -/
def quote (s : String) : String :=
  s.data.foldl
    (fun acc c =>
      if quoteSafe c then acc.push c
      else acc ++ String.join ((utf8Bytes c).map pctByte)) ""

/-- Result of validating one URL (`ValidationResult` dataclass of
`src/url_validator.py`). -/
structure ValidationResult where
  url : String
  is_valid : Bool
  status_code : Option Nat
  final_url : Option String
  error : Option String
deriving DecidableEq

/-- Observable outcome of probing one URL over the network.  `response`
carries the HTTP status and the URL the request resolved to after
redirects (`str(response.url)`); the remaining constructors are the
exception paths of `validate_url`: `asyncio.TimeoutError`,
`aiohttp.ClientError` (with the exception type name), any other
`Exception` (with its message), and `escaped` for a failure that escapes
`validate_url` itself and is only captured by
`asyncio.gather(..., return_exceptions=True)` in `validate_urls_batch`. -/
inductive ProbeOutcome where
  | response (status : Nat) (resolved : String)
  | timeout
  | clientError (name : String)
  | exn (msg : String)
  | escaped (msg : String)

/-- The network as seen by one validation run: a deterministic map from a
URL to the outcome of its probe (the aiohttp session plus the event loop). -/
abbrev Transport := String → ProbeOutcome

/-- Outcome of `validate_url`: the `ValidationResult` it returns, or
`Except.error` when the probe failure escapes it; `probed` records whether
a network request was issued at all. -/
structure ValidateOut where
  result : Except String ValidationResult
  probed : Bool

/-- Function `validate_url` of `src/url_validator.py` (lines 19-95): blocklist
check, scheme check, then the HEAD probe with all its exception handlers.
On line 68 the source computes
`final_url = str(response.url) if response.url != url else None`, but
`response.url` is a `yarl.URL` object while `url` is a `str`, and
`yarl.URL.__eq__` returns `NotImplemented` for a `str` operand, so the
`!=` test is true on every response: the program records
`final_url = str(response.url)` on every successful probe, even when it
textually equals the requested URL, and the `None` branch is dead code.
The embedding therefore sets `final_url` unconditionally in the response
arm. -/
def validate_url (session : Transport) (url : String) : ValidateOut :=
  if strContains url "vertexaisearch.cloud.google.com" then
    ⟨.ok ⟨url, false, none, none, some "Google redirect-länk (ej direkt URL)"⟩, false⟩
  else if !(strStartsWith url "http://" || strStartsWith url "https://") then
    ⟨.ok ⟨url, false, none, none, some "Ogiltig URL-format"⟩, false⟩
  else
    match session url with
    | .response status resolved =>
      ⟨.ok ⟨url, decide (status < 400), some status,
            some resolved,
            if status < 400 then none else some ("HTTP " ++ toString status)⟩, true⟩
    | .timeout => ⟨.ok ⟨url, false, none, none, some "Timeout"⟩, true⟩
    | .clientError n => ⟨.ok ⟨url, false, none, none, some ("Nätverksfel: " ++ n)⟩, true⟩
    | .exn m => ⟨.ok ⟨url, false, none, none, some ("Oväntat fel: " ++ strTake m 50)⟩, true⟩
    | .escaped m => ⟨.error m, true⟩

/-- The per-URL entry `validate_urls_batch` stores in its dict: the
`ValidationResult` produced by `validate_url`, or — when the probe failure
escaped `validate_url` and was returned by `gather` — the synthetic
`Exception: ...` result built in its collection loop (lines 136-146). -/
def batchResult (session : Transport) (url : String) : ValidationResult :=
  match (validate_url session url).result with
  | .ok r => r
  | .error m => ⟨url, false, none, none, some ("Exception: " ++ strTake m 50)⟩

/-- Python dict assignment `d[k] = v`: overwrite the value if the key is
present (keeping its position), otherwise append the pair. -/
def dictInsert (d : List (String × ValidationResult)) (k : String)
    (v : ValidationResult) : List (String × ValidationResult) :=
  if d.any (fun p => p.1 == k) then
    d.map (fun p => if p.1 == k then (k, v) else p)
  else
    d ++ [(k, v)]

/-- Python `d.get(k)` on the dict representation: the value stored at the
first (and, for a dict, only) pair whose key is exactly `k`. -/
def dictGet : List (String × ValidationResult) → String → Option ValidationResult
  | [], _ => none
  | p :: d, k => if p.1 == k then some p.2 else dictGet d k

/-- Function `validate_urls_batch` of `src/url_validator.py` (lines 98-148): probe
every URL and collect one `ValidationResult` per URL into a dict, keyed by
the URL string itself.  The concurrency gate and shared session affect
only scheduling, not the per-URL values, and are abstracted into
`Transport`. -/
def validate_urls_batch (urls : List String) (session : Transport) :
    List (String × ValidationResult) :=
  urls.foldl (fun results url => dictInsert results url (batchResult session url)) []

/-- Function `create_google_search_url` of `src/url_validator.py` (lines 151-168). -/
def create_google_search_url (title : String) (source : Option String) : String :=
  let search_query :=
    match source with
    | some s =>
      if s ≠ "" && !(strContains (strToLower title) (strToLower s)) then title ++ " " ++ s
      else title
    | none => title
  "https://www.google.com/search?q=" ++ quote search_query

/-- A news item as the filtering step sees it: a Python dict with the
fields this subsystem reads or writes.  `none` is an absent key (or a
`None` value, which the code treats identically through `get`
defaulting and truthiness).  `url_status` and `url_error` store values
that are themselves optional in the source (`status_code` and
`result.error` may be `None`). -/
structure NewsItem where
  title : Option String
  url : Option String
  source : Option String
  url_verified : Option Bool
  url_status : Option (Option Nat)
  url_error : Option (Option String)
  url_is_search : Option Bool
  original_url : Option String
deriving DecidableEq

/-- Python truthiness of `item.get("title")`. -/
def titleTruthy (item : NewsItem) : Bool :=
  item.title.getD "" != ""

/-- The broken-link branch of `filter_valid_news` (lines 220-237): repair
with a search link when enabled and a title exists, otherwise annotate and
drop. -/
def brokenCase (replace_broken_with_search : Bool) (item : NewsItem) (url : String)
    (result : Option ValidationResult) : NewsItem × Bool × Bool :=
  if replace_broken_with_search && titleTruthy item then
    ({ item with
        original_url := some url,
        url := some (create_google_search_url (item.title.getD "") item.source),
        url_is_search := some true,
        url_verified := some false,
        url_error := some (match result with | some r => r.error | none => some "Ej validerad") },
      true, true)
  else
    ({ item with
        url_verified := some false,
        url_error := some (match result with | some r => r.error | none => some "Ej validerad") },
      false, false)

/-- One iteration of the `filter_valid_news` loop (lines 193-238) on one
item: the item as mutated by the iteration, whether it was appended to
`valid`, and whether it was appended to `fixed`. -/
def filterStep (validation_results : String → Option ValidationResult)
    (replace_broken_with_search : Bool) (item : NewsItem) : NewsItem × Bool × Bool :=
  let url := item.url.getD ""
  if url = "" then
    if replace_broken_with_search && titleTruthy item then
      ({ item with
          url := some (create_google_search_url (item.title.getD "") item.source),
          url_is_search := some true,
          url_verified := some false,
          url_error := some (some "Ingen original-URL, söklänk skapad") },
        true, true)
    else
      (item, false, false)
  else
    match validation_results url with
    | some result =>
      if result.is_valid then
        ({ (match result.final_url with
            | some f => if f ≠ "" ∧ f ≠ url then { item with url := some f, original_url := some url } else item
            | none => item) with
            url_verified := some true,
            url_status := some result.status_code },
          true, false)
      else
        brokenCase replace_broken_with_search item url (some result)
    | none => brokenCase replace_broken_with_search item url none

/-- Function `filter_valid_news` of `src/url_validator.py` (lines 171-239): fold the
per-item step over the input sequence, collecting the `valid` and `fixed`
output sequences in input order. -/
def filter_valid_news (news_items : List NewsItem)
    (validation_results : String → Option ValidationResult)
    (replace_broken_with_search : Bool) : List NewsItem × List NewsItem :=
  match news_items with
  | [] => ([], [])
  | item :: rest =>
    ((if (filterStep validation_results replace_broken_with_search item).2.1 then
        (filterStep validation_results replace_broken_with_search item).1 ::
          (filter_valid_news rest validation_results replace_broken_with_search).1
      else (filter_valid_news rest validation_results replace_broken_with_search).1),
     (if (filterStep validation_results replace_broken_with_search item).2.2 then
        (filterStep validation_results replace_broken_with_search item).1 ::
          (filter_valid_news rest validation_results replace_broken_with_search).2
      else (filter_valid_news rest validation_results replace_broken_with_search).2))

/-- Outcome of a full run of a function wrapped by `retry_with_backoff`:
the value returned, the exception finally raised, or — for a retry budget
of zero — the `raise last_exception` with `last_exception` still `None`. -/
inductive RetryOutcome (E A : Type) where
  | ok (a : A)
  | err (e : E)
  | errNone
deriving DecidableEq

/-- One observability event of the retry loop (lines 47-57 of
`src/utils/retry.py`), in source order: the delay is computed, the
`on_retry` callback (or the default log print) is invoked with the caught
exception and `attempt + 1`, and then the loop sleeps for `delay`
seconds before the next attempt. -/
structure RetryEvent (E : Type) where
  fail : E
  attemptNumber : Nat
  delay : ℚ
deriving DecidableEq

/-- Trace of one run of a wrapped function: final outcome, how many times
the wrapped function was invoked, and the ordered callback/sleep events. -/
structure RetryRun (E A : Type) where
  outcome : RetryOutcome E A
  calls : Nat
  events : List (RetryEvent E)

/-- The `for attempt in range(max_retries)` loop of `retry_with_backoff`
(lines 41-60 of `src/utils/retry.py`).  `func attempt` is the result of
the attempt-th invocation of the wrapped function (a value or a raised
exception), `exceptions e` says whether exception `e` matches the
configured retryable tuple, `remaining` is the number of loop iterations
left, and `last` is the `last_exception` variable.  The top-level call in
`retry_with_backoff` keeps the invariant `attempt + remaining =
max_retries`. -/
def retryGo {E A : Type} (func : Nat → Except E A) (exceptions : E → Bool)
    (max_retries : Nat) (base_delay max_delay : ℚ) :
    Nat → Nat → Option E → RetryRun E A
  | 0, _, last =>
    ⟨match last with | some e => .err e | none => .errNone, 0, []⟩
  | remaining + 1, attempt, _ =>
    match func attempt with
    | .ok a => ⟨.ok a, 1, []⟩
    | .error e =>
      if exceptions e then
        if attempt < max_retries - 1 then
          ⟨(retryGo func exceptions max_retries base_delay max_delay
              remaining (attempt + 1) (some e)).outcome,
           (retryGo func exceptions max_retries base_delay max_delay
              remaining (attempt + 1) (some e)).calls + 1,
           ⟨e, attempt + 1, min (base_delay * 2 ^ attempt) max_delay⟩ ::
             (retryGo func exceptions max_retries base_delay max_delay
                remaining (attempt + 1) (some e)).events⟩
        else
          ⟨(retryGo func exceptions max_retries base_delay max_delay
              remaining (attempt + 1) (some e)).outcome,
           (retryGo func exceptions max_retries base_delay max_delay
              remaining (attempt + 1) (some e)).calls + 1,
           (retryGo func exceptions max_retries base_delay max_delay
              remaining (attempt + 1) (some e)).events⟩
      else ⟨.err e, 1, []⟩

/-- Function `retry_with_backoff` of `src/utils/retry.py` (lines 10-63) applied to a
wrapped function: run the retry loop from attempt 0 with `last_exception =
None`. -/
def retry_with_backoff {E A : Type} (func : Nat → Except E A)
    (exceptions : E → Bool) (max_retries : Nat) (base_delay max_delay : ℚ) :
    RetryRun E A :=
  retryGo func exceptions max_retries base_delay max_delay max_retries 0 none

/-- Item A of the worked scenario in the spec: title `A`, reachable URL. -/
def itemA : NewsItem := ⟨some "A", some "https://good.example", none, none, none, none, none, none⟩

/-- Item B of the worked scenario: title `B`, empty URL. -/
def itemB : NewsItem := ⟨some "B", some "", none, none, none, none, none, none⟩

/-- Item C of the worked scenario: title `C`, dead URL. -/
def itemC : NewsItem := ⟨some "C", some "https://dead.example", none, none, none, none, none, none⟩

/-- Verdicts of the worked scenario: `good.example` valid with status 200,
`dead.example` invalid with `HTTP 404`. -/
def res1 : String → Option ValidationResult := fun u =>
  if u = "https://good.example" then some ⟨"https://good.example", true, some 200, none, none⟩
  else if u = "https://dead.example" then some ⟨"https://dead.example", false, some 404, none, some "HTTP 404"⟩
  else none

/-- A transport whose response resolves every request to the empty string. -/
def sessionEmptyRedirect : Transport := fun _ => .response 200 ""

/-- An item holding the URL probed through `sessionEmptyRedirect`. -/
def item2 : NewsItem := ⟨some "T", some "http://a", none, none, none, none, none, none⟩

/-- The `ValidationResult` that `validate_url` produces for `http://a`
through `sessionEmptyRedirect`. -/
def r2val : ValidationResult := ⟨"http://a", true, some 200, some "", none⟩

/-- Verdict mapping holding exactly `r2val` for `http://a`. -/
def res2 : String → Option ValidationResult := fun u =>
  if u = "http://a" then some r2val else none

/-- A transport whose response resolves every request to `http://a` with
status 200 — in particular a probe of `http://a` itself resolves to the
very URL that was requested (no redirect). -/
def sessionSelf : Transport := fun _ => .response 200 "http://a"

/-- The `ValidationResult` that `validate_url` produces for `http://a`
through `sessionSelf`: `final_url` is populated even though the resolved
URL equals the requested one. -/
def rSelf : ValidationResult := ⟨"http://a", true, some 200, some "http://a", none⟩

/-- Verdict mapping holding exactly `rSelf` for `http://a`. -/
def resSelf : String → Option ValidationResult := fun u =>
  if u = "http://a" then some rSelf else none

/-- A transport that redirects every request to `https://new.example`
with status 301. -/
def sessionRedirect : Transport := fun _ => .response 301 "https://new.example"

/-- The `ValidationResult` `validate_url` produces for `http://old.example`
through `sessionRedirect`. -/
def rW : ValidationResult := ⟨"http://old.example", true, some 301, some "https://new.example", none⟩

/-- An item holding the URL probed through `sessionRedirect`. -/
def itemW : NewsItem := ⟨some "T", some "http://old.example", none, none, none, none, none, none⟩

/-- Verdict mapping holding exactly `rW` for `http://old.example`. -/
def resW : String → Option ValidationResult := fun u =>
  if u = "http://old.example" then some rW else none

/-- A transport whose probe failure escapes `validate_url` itself. -/
def sessionEscape : Transport := fun _ => .escaped "kaboom"

/-- A transport that times out on every request. -/
def sessionTimeout : Transport := fun _ => .timeout

/-- An operation that fails twice with a retryable failure, then succeeds. -/
def opFlaky : Nat → Except String String := fun n =>
  if n < 2 then .error "flaky" else .ok "done"

/-- An operation that always fails with the same failure. -/
def opBoom : Nat → Except String String := fun _ => .error "boom"

/-- A retryable-exception predicate matching every failure. -/
def exAllB : String → Bool := fun _ => true

/-- An operation whose first failure is retryable and whose second is not. -/
def opMixed : Nat → Except String String := fun n =>
  if n = 0 then .error "soft" else .error "hard"

/-- A retryable-exception predicate matching only the failure `soft`. -/
def exSoft : String → Bool := fun e => e == "soft"

/-- An item with a reachable URL, used with `res10`. -/
def item10 : NewsItem := ⟨some "X", some "https://ok.example", none, none, none, none, none, none⟩

/-- Verdict mapping marking `https://ok.example` valid with status 200. -/
def res10 : String → Option ValidationResult := fun u =>
  if u = "https://ok.example" then some ⟨"https://ok.example", true, some 200, none, none⟩ else none

/-- The empty verdict mapping. -/
def resEmpty : String → Option ValidationResult := fun _ => none

/-! Helper lemmas about the filtering step. -/

lemma containsL_nil (hay : List Char) : containsL hay [] = true := by
  cases hay <;> simp [containsL, leadsWith]

lemma strContains_empty_pat (hay : String) : strContains hay "" = true :=
  containsL_nil hay.data

lemma mem_valid_of_step (results : String → Option ValidationResult) (repair : Bool)
    (items : List NewsItem) (item : NewsItem) (hmem : item ∈ items)
    (hflag : (filterStep results repair item).2.1 = true) :
    (filterStep results repair item).1 ∈ (filter_valid_news items results repair).1 := by
  induction items with
  | nil => cases hmem
  | cons a l ih =>
    rcases List.mem_cons.mp hmem with h | h
    · subst h
      simp [filter_valid_news, hflag]
    · by_cases hf : (filterStep results repair a).2.1 = true
      · simp only [filter_valid_news, hf, if_true]
        exact List.mem_cons_of_mem _ (ih h)
      · simp only [filter_valid_news, hf, if_false, Bool.false_eq_true]
        simpa [hf] using ih h

lemma mem_fixed_of_step (results : String → Option ValidationResult) (repair : Bool)
    (items : List NewsItem) (item : NewsItem) (hmem : item ∈ items)
    (hflag : (filterStep results repair item).2.2 = true) :
    (filterStep results repair item).1 ∈ (filter_valid_news items results repair).2 := by
  induction items with
  | nil => cases hmem
  | cons a l ih =>
    rcases List.mem_cons.mp hmem with h | h
    · subst h
      simp [filter_valid_news, hflag]
    · by_cases hf : (filterStep results repair a).2.2 = true
      · simp only [filter_valid_news, hf, if_true]
        exact List.mem_cons_of_mem _ (ih h)
      · simpa [filter_valid_news, hf] using ih h

lemma filterStep_strict (results : String → Option ValidationResult) (a : NewsItem) :
    (filterStep results false a).2.2 = false ∧
    ((filterStep results false a).2.1 = true →
      (filterStep results false a).1.url_verified = some true ∧
      a.url.getD "" ≠ "" ∧
      ∃ r, results (a.url.getD "") = some r ∧ r.is_valid = true) := by
  by_cases hu : a.url.getD "" = ""
  · simp [filterStep, hu]
  · cases hr : results (a.url.getD "") with
    | none => simp [filterStep, hu, hr, brokenCase]
    | some r =>
      by_cases hv : r.is_valid = true
      · refine ⟨by simp [filterStep, hu, hr, hv], fun _ => ⟨?_, hu, r, rfl, hv⟩⟩
        simp only [filterStep, hu, if_false, hr, hv, if_true]
      · simp [filterStep, hu, hr, hv, brokenCase]

/-- C9: for every input sequence, verdict mapping and policy flag, both
output sequences of `filter_valid_news` are subsequences of the input
sequence (each item taken in its per-item mutated form), so the relative
order of any two output items equals their relative order in the input. -/
theorem c9_order_preserved (news_items : List NewsItem)
    (validation_results : String → Option ValidationResult)
    (replace_broken_with_search : Bool) :
    (filter_valid_news news_items validation_results replace_broken_with_search).1.Sublist
      (news_items.map fun it => (filterStep validation_results replace_broken_with_search it).1) ∧
    (filter_valid_news news_items validation_results replace_broken_with_search).2.Sublist
      (news_items.map fun it => (filterStep validation_results replace_broken_with_search it).1) := by
  induction news_items with
  | nil => simp [filter_valid_news]
  | cons a l ih =>
    constructor
    · by_cases hf : (filterStep validation_results replace_broken_with_search a).2.1 = true
      · simp only [filter_valid_news, hf, if_true, List.map_cons]
        exact ih.1.cons₂ _
      · simp only [filter_valid_news, hf, if_false, Bool.false_eq_true, List.map_cons]
        simpa [hf] using ih.1.cons _
    · by_cases hf : (filterStep validation_results replace_broken_with_search a).2.2 = true
      · simp only [filter_valid_news, hf, if_true, List.map_cons]
        exact ih.2.cons₂ _
      · simp only [filter_valid_news, hf, if_false, Bool.false_eq_true, List.map_cons]
        simpa [hf] using ih.2.cons _

/-- C10: with repair disabled the fixed output is empty, every kept item
carries `url_verified = true`, and every kept item arises from an input
item whose URL was present and judged valid by the verdict mapping; items
with a missing or invalid URL appear in neither output. -/
theorem c10_strict_reject (news_items : List NewsItem)
    (results : String → Option ValidationResult) :
    (filter_valid_news news_items results false).2 = [] ∧
    ∀ it2, it2 ∈ (filter_valid_news news_items results false).1 →
      it2.url_verified = some true ∧
      ∃ it, it ∈ news_items ∧ ∃ r, it.url.getD "" ≠ "" ∧
        results (it.url.getD "") = some r ∧ r.is_valid = true ∧
        it2 = (filterStep results false it).1 := by
  induction news_items with
  | nil => exact ⟨rfl, by simp [filter_valid_news]⟩
  | cons a l ih =>
    obtain ⟨h22, hstep⟩ := filterStep_strict results a
    constructor
    · simp only [filter_valid_news, h22, Bool.false_eq_true, if_false]
      exact ih.1
    · intro it2 hmem
      by_cases hf : (filterStep results false a).2.1 = true
      · simp only [filter_valid_news, hf, if_true, List.mem_cons] at hmem
        rcases hmem with h | h
        · obtain ⟨hv, hu, r, hr, hval⟩ := hstep hf
          exact ⟨h ▸ hv, a, List.mem_cons_self a l, r, hu, hr, hval, h⟩
        · obtain ⟨hv, it, hit, rest⟩ := ih.2 it2 h
          exact ⟨hv, it, List.mem_cons_of_mem _ hit, rest⟩
      · simp only [filter_valid_news, hf, Bool.false_eq_true, if_false] at hmem
        obtain ⟨hv, it, hit, rest⟩ := ih.2 it2 hmem
        exact ⟨hv, it, List.mem_cons_of_mem _ hit, rest⟩

/-- C10 witness: on a single item with a reachable URL, the strict filter
returns an empty fixed output and marks the kept item verified. -/
theorem c10_witness :
    (filter_valid_news [item10] res10 false).2 = [] ∧
    (filterStep res10 false item10).1.url_verified = some true := by
  refine ⟨(c10_strict_reject [item10] res10).1, ?_⟩
  exact ((c10_strict_reject [item10] res10).2 (filterStep res10 false item10).1 (by decide)).1

/-- C1: on the worked scenario with repair disabled, the second (fixed)
output sequence is empty — it does not contain items B and C as the spec
scenario asserts; with repair disabled, broken and URL-less items are
dropped from both outputs. -/
theorem c1_counterexample :
    (filter_valid_news [itemA, itemB, itemC] res1 false).2 = [] := rfl

/-- C1 (amended): on the worked scenario with repair disabled, the kept
output holds exactly item A annotated as verified with status 200, and the
second (fixed) output is empty; items B and C appear in neither output. -/
theorem c1_strict_scenario :
    filter_valid_news [itemA, itemB, itemC] res1 false =
      ([{ itemA with url_verified := some true, url_status := some (some 200) }], []) := rfl

/-- C8: with repair enabled, every item with a (truthy) title whose URL is
missing or judged invalid is rewritten to a Google web-search URL whose
query is the title alone when the source is absent or a case-insensitive
substring of the title, and the title followed by the source otherwise,
percent-encoded; the item is marked `url_is_search = true`,
`url_verified = false`, is kept in the first output and also recorded in
the fixed output. -/
theorem c8_search_repair (items : List NewsItem)
    (results : String → Option ValidationResult) (item : NewsItem) (t : String)
    (hmem : item ∈ items) (ht : item.title = some t) (htne : t ≠ "")
    (hbad : item.url.getD "" = "" ∨
      ∀ r, results (item.url.getD "") = some r → r.is_valid = false) :
    ((filterStep results true item).1.url = some (create_google_search_url t item.source) ∧
     (filterStep results true item).1.url_is_search = some true ∧
     (filterStep results true item).1.url_verified = some false ∧
     (filterStep results true item).1 ∈ (filter_valid_news items results true).1 ∧
     (filterStep results true item).1 ∈ (filter_valid_news items results true).2) ∧
    (item.source = none →
      create_google_search_url t item.source = "https://www.google.com/search?q=" ++ quote t) ∧
    (∀ s, item.source = some s → strContains (strToLower t) (strToLower s) = true →
      create_google_search_url t item.source = "https://www.google.com/search?q=" ++ quote t) ∧
    (∀ s, item.source = some s → strContains (strToLower t) (strToLower s) = false →
      create_google_search_url t item.source =
        "https://www.google.com/search?q=" ++ quote (t ++ " " ++ s)) := by
  have htt : titleTruthy item = true := by
    simp [titleTruthy, ht]
    exact htne
  have key : (filterStep results true item).1.url = some (create_google_search_url t item.source) ∧
      (filterStep results true item).1.url_is_search = some true ∧
      (filterStep results true item).1.url_verified = some false ∧
      (filterStep results true item).2.1 = true ∧
      (filterStep results true item).2.2 = true := by
    by_cases hu : item.url.getD "" = ""
    · simp [filterStep, hu, htt, ht]
    · have hinv : ∀ r, results (item.url.getD "") = some r → r.is_valid = false :=
        hbad.resolve_left hu
      cases hr : results (item.url.getD "") with
      | none => simp [filterStep, hu, hr, brokenCase, htt, ht]
      | some r =>
        have hv : r.is_valid = false := hinv r hr
        simp [filterStep, hu, hr, hv, brokenCase, htt, ht]
  refine ⟨⟨key.1, key.2.1, key.2.2.1,
    mem_valid_of_step results true items item hmem key.2.2.2.1,
    mem_fixed_of_step results true items item hmem key.2.2.2.2⟩, ?_, ?_, ?_⟩
  · intro hs
    simp [create_google_search_url, hs]
  · intro s hs hsub
    simp [create_google_search_url, hs, hsub]
  · intro s hs hsub
    have hsne : s ≠ "" := by
      intro h
      rw [h] at hsub
      have hempty : strContains (strToLower t) (strToLower "") = true :=
        strContains_empty_pat (strToLower t)
      rw [hempty] at hsub
      cases hsub
    simp [create_google_search_url, hs, hsub, hsne]

/-- C8 witness: an item with title `B` and an empty URL, repaired against
the empty verdict mapping, is kept with the synthesized search URL and
recorded in the fixed output. -/
theorem c8_witness :
    (filterStep resEmpty true itemB).1.url = some "https://www.google.com/search?q=B" ∧
    (filterStep resEmpty true itemB).1 ∈ (filter_valid_news [itemB] resEmpty true).2 := by
  obtain ⟨⟨hurl, hsearch, hver, hmem1, hmem2⟩, hchar⟩ :=
    c8_search_repair [itemB] resEmpty itemB "B" (by simp) rfl (by decide) (Or.inl rfl)
  refine ⟨?_, hmem2⟩
  rw [hurl]
  rfl

/-- C5: the blocklist pattern is checked first: any URL containing the
grounding-redirect host is classified invalid with the redirect-only
error, no network probe and no status code, even when it also lacks an
http/https prefix; any remaining URL without an http/https prefix is
classified invalid with the format error, again with no probe and no
status code. -/
theorem c5_precheck_order (session : Transport) (url : String) :
    (strContains url "vertexaisearch.cloud.google.com" = true →
      validate_url session url =
        ⟨.ok ⟨url, false, none, none, some "Google redirect-länk (ej direkt URL)"⟩, false⟩) ∧
    (strContains url "vertexaisearch.cloud.google.com" = false →
      (strStartsWith url "http://" || strStartsWith url "https://") = false →
      validate_url session url =
        ⟨.ok ⟨url, false, none, none, some "Ogiltig URL-format"⟩, false⟩) := by
  constructor
  · intro h
    simp [validate_url, h]
  · intro h1 h2
    simp [validate_url, h1, h2]

/-- C5 witness: a blocklisted URL without a scheme is rejected by the
blocklist rule (not the format rule), and an `ftp://` URL by the format
rule, both without any probe. -/
theorem c5_witness :
    validate_url sessionTimeout "vertexaisearch.cloud.google.com/abc" =
      ⟨.ok ⟨"vertexaisearch.cloud.google.com/abc", false, none, none,
        some "Google redirect-länk (ej direkt URL)"⟩, false⟩ ∧
    validate_url sessionTimeout "ftp://x" =
      ⟨.ok ⟨"ftp://x", false, none, none, some "Ogiltig URL-format"⟩, false⟩ :=
  ⟨(c5_precheck_order sessionTimeout "vertexaisearch.cloud.google.com/abc").1 (by decide),
   (c5_precheck_order sessionTimeout "ftp://x").2 (by decide) (by decide)⟩

/-- C2 (amended): for a probed URL whose response has status below 400,
`final_url` is always set to the resolved URL reported by the response —
the source's `response.url != url` test compares a URL object against a
string and never reports equality, so there is no absent-when-equal case;
and when the recorded `final_url` is a nonempty string that differs from
the requested URL, the filtering step overwrites the item's URL with it,
stores the requested URL under `original_url`, and sets
`url_verified = true` and `url_status` to the observed status. -/
theorem c2_redirect_roundtrip (session : Transport) (url : String)
    (status : Nat) (resolved : String)
    (hbl : strContains url "vertexaisearch.cloud.google.com" = false)
    (hpre : (strStartsWith url "http://" || strStartsWith url "https://") = true)
    (hresp : session url = .response status resolved) (hok : status < 400) :
    ∃ r, (validate_url session url).result = .ok r ∧
      r.is_valid = true ∧ r.status_code = some status ∧
      r.final_url = some resolved ∧
      ∀ (item : NewsItem) (results : String → Option ValidationResult) (repair : Bool),
        item.url = some url → results url = some r →
        resolved ≠ url → resolved ≠ "" →
        (filterStep results repair item).1.url = some resolved ∧
        (filterStep results repair item).1.original_url = some url ∧
        (filterStep results repair item).1.url_verified = some true ∧
        (filterStep results repair item).1.url_status = some (some status) ∧
        (filterStep results repair item).2.1 = true ∧
        (filterStep results repair item).2.2 = false := by
  have hune : url ≠ "" := by
    intro h
    rw [h] at hpre
    exact absurd hpre (by decide)
  refine ⟨⟨url, true, some status, some resolved, none⟩, ?_, rfl, rfl, rfl, ?_⟩
  · simp only [validate_url, hbl, Bool.false_eq_true, if_false, hpre, Bool.not_true,
      hresp]
    simp [hok]
  · intro item results repair hiurl hres hne hnem
    have hu : item.url.getD "" = url := by rw [hiurl]; rfl
    simp [filterStep, hu, hune, hres, hne, hnem]

/-- C2 counterexample: through a transport whose response for `http://a`
resolves to `http://a` itself (no redirect, status 200), `validate_url`
still records `final_url = some "http://a"` — refuting that `final_url`
is absent when the resolved URL equals the requested one — and the
filtering step neither overwrites the URL nor stores `original_url`
although a `final_url` was recorded; likewise, a recorded but empty
`final_url` (resolved URL `""`, status 200) is falsy in the source's
truthiness test, so it too is recorded yet never written back. -/
theorem c2_counterexample :
    ((validate_url sessionSelf "http://a").result = .ok rSelf ∧
     rSelf.final_url = some "http://a" ∧
     rSelf.final_url ≠ none ∧
     rSelf.status_code = some 200 ∧ rSelf.is_valid = true ∧
     (filterStep resSelf true item2).1.url = some "http://a" ∧
     (filterStep resSelf true item2).1.original_url = none) ∧
    ((validate_url sessionEmptyRedirect "http://a").result = .ok r2val ∧
     r2val.final_url = some "" ∧ r2val.status_code = some 200 ∧ r2val.is_valid = true ∧
     (filterStep res2 true item2).1.url = some "http://a" ∧
     (filterStep res2 true item2).1.original_url = none) :=
  ⟨⟨rfl, rfl, by decide, rfl, rfl, rfl, rfl⟩, ⟨rfl, rfl, rfl, rfl, rfl, rfl⟩⟩

/-- C2 witness: a nonempty redirect target is written back into the item by
the filtering step, with the original URL preserved. -/
theorem c2_witness :
    (filterStep resW true itemW).1.url = some "https://new.example" ∧
    (filterStep resW true itemW).1.original_url = some "http://old.example" ∧
    (filterStep resW true itemW).1.url_verified = some true ∧
    (filterStep resW true itemW).1.url_status = some (some 301) := by
  obtain ⟨r, hr, hval, hst, hfin, hfilter⟩ :=
    c2_redirect_roundtrip sessionRedirect "http://old.example" 301 "https://new.example"
      (by decide) (by decide) rfl (by decide)
  have hrw : r = rW := by
    have : (validate_url sessionRedirect "http://old.example").result = .ok rW := rfl
    rw [this] at hr
    exact (Except.ok.inj hr).symm
  subst hrw
  obtain ⟨h1, h2, h3, h4, h5, h6⟩ :=
    hfilter itemW resW true rfl (by simp [resW]) (by decide) (by decide)
  exact ⟨h1, h2, h3, h4⟩

/-! Helper lemmas about the dict representation used by the batch. -/

lemma dictGet_map_overwrite (k u : String) (v : ValidationResult) :
    ∀ d : List (String × ValidationResult),
      dictGet (d.map (fun p => if p.1 == k then (k, v) else p)) u =
        if u = k ∧ d.any (fun p => p.1 == k) then some v else dictGet d u := by
  intro d
  induction d with
  | nil => simp [dictGet]
  | cons hd tl ih =>
    simp only [List.map_cons, List.any_cons, dictGet]
    rw [ih]
    by_cases hh : hd.1 = k
    · by_cases hu : u = k
      · subst hu
        simp [hh]
      · simp [hh, hu, Ne.symm hu, beq_iff_eq]
    · have hb : (hd.1 == k) = false := by
        simp [hh]
      by_cases hu2 : hd.1 = u
      · have huk : ¬(u = k) := fun h => hh (hu2.trans h)
        simp [hb, hh, hu2, huk, beq_iff_eq]
      · rw [hb]
        simp [hu2, beq_iff_eq]
        rfl

lemma dictGet_append_single (k u : String) (v : ValidationResult) :
    ∀ d : List (String × ValidationResult),
      d.any (fun p => p.1 == k) = false →
      dictGet (d ++ [(k, v)]) u = if u = k then some v else dictGet d u := by
  intro d
  induction d with
  | nil =>
    intro _
    by_cases hu : u = k
    · subst hu
      simp [dictGet]
    · simp [dictGet, beq_iff_eq, hu, Ne.symm hu]
  | cons hd tl ih =>
    intro hfresh
    simp only [List.any_cons, Bool.or_eq_false_iff] at hfresh
    by_cases hu2 : hd.1 = u
    · have huk : ¬(u = k) := by
        intro h
        have hb : (u == k) = false := hu2 ▸ hfresh.1
        rw [h] at hb
        simp at hb
      simp [dictGet, hu2, huk, beq_iff_eq]
    · simp [dictGet, hu2, beq_iff_eq, ih hfresh.2]

lemma dictGet_insert (d : List (String × ValidationResult)) (k u : String)
    (v : ValidationResult) :
    dictGet (dictInsert d k v) u = if u = k then some v else dictGet d u := by
  unfold dictInsert
  by_cases hmem : d.any (fun p => p.1 == k) = true
  · rw [if_pos hmem, dictGet_map_overwrite]
    by_cases hu : u = k <;> simp [hu, hmem]
  · have hf : d.any (fun p => p.1 == k) = false := by
      cases h : d.any (fun p => p.1 == k) with
      | false => rfl
      | true => exact absurd h hmem
    rw [if_neg hmem, dictGet_append_single k u v d hf]

lemma batch_get (session : Transport) :
    ∀ (urls : List String) (acc : List (String × ValidationResult)) (u : String),
      dictGet (urls.foldl (fun results url => dictInsert results url (batchResult session url)) acc) u =
        if u ∈ urls then some (batchResult session u) else dictGet acc u := by
  intro urls
  induction urls with
  | nil => simp
  | cons url rest ih =>
    intro acc u
    simp only [List.foldl_cons]
    rw [ih]
    by_cases hu : u ∈ rest
    · simp [hu]
    · rw [dictGet_insert]
      by_cases hue : u = url
      · subst hue
        simp [hu]
      · simp [hu, hue]

lemma keys_dictInsert (d : List (String × ValidationResult)) (k : String)
    (v : ValidationResult) :
    (dictInsert d k v).map Prod.fst =
      if d.any (fun p => p.1 == k) then d.map Prod.fst else d.map Prod.fst ++ [k] := by
  unfold dictInsert
  by_cases hmem : d.any (fun p => p.1 == k) = true
  · rw [if_pos hmem, if_pos hmem, List.map_map]
    apply List.map_congr_left
    intro p _
    by_cases hp : p.1 = k
    · simp [hp]
    · simp [hp]
  · rw [if_neg hmem, if_neg hmem]
    simp

lemma notMem_keys_of_any_false (d : List (String × ValidationResult)) (k : String)
    (h : d.any (fun p => p.1 == k) = false) : k ∉ d.map Prod.fst := by
  intro hk
  obtain ⟨p, hp, hpk⟩ := List.mem_map.mp hk
  have : d.any (fun p => p.1 == k) = true :=
    List.any_eq_true.mpr ⟨p, hp, by simp [hpk]⟩
  rw [h] at this
  cases this

lemma batch_keys_nodup (session : Transport) :
    ∀ (urls : List String) (acc : List (String × ValidationResult)),
      (acc.map Prod.fst).Nodup →
      ((urls.foldl (fun results url => dictInsert results url (batchResult session url)) acc).map
        Prod.fst).Nodup := by
  intro urls
  induction urls with
  | nil =>
    intro acc hacc
    simpa using hacc
  | cons url rest ih =>
    intro acc hacc
    simp only [List.foldl_cons]
    apply ih
    rw [keys_dictInsert]
    by_cases hmem : acc.any (fun p => p.1 == url) = true
    · simpa [hmem] using hacc
    · have hf : acc.any (fun p => p.1 == url) = false := by
        cases h : acc.any (fun p => p.1 == url) with
        | false => rfl
        | true => exact absurd h hmem
      have hnm := notMem_keys_of_any_false acc url hf
      simp [hf, List.nodup_append, hacc, hnm]

/-- C4: the batch returns exactly one `ValidationResult` per distinct input
URL, keyed by exact string match (lookups of anything outside the input
list miss), and every per-URL probe failure — including one that escapes
`validate_url` itself — is converted into an invalid `ValidationResult`
rather than aborting the batch. -/
theorem c4_batch_total (session : Transport) (urls : List String) :
    ((validate_urls_batch urls session).map Prod.fst).Nodup ∧
    (∀ u, dictGet (validate_urls_batch urls session) u =
      if u ∈ urls then some (batchResult session u) else none) ∧
    (∀ u m, (validate_url session u).result = .error m →
      batchResult session u = ⟨u, false, none, none, some ("Exception: " ++ strTake m 50)⟩) := by
  refine ⟨batch_keys_nodup session urls [] (by simp), fun u => ?_, fun u m h => ?_⟩
  · have := batch_get session urls [] u
    simpa [validate_urls_batch, dictGet] using this
  · unfold batchResult
    rw [h]

/-- C4 witness: a URL whose probe failure escapes `validate_url` still gets
an entry in the batch mapping, converted to an invalid result. -/
theorem c4_witness :
    dictGet (validate_urls_batch ["https://x.example"] sessionEscape) "https://x.example" =
      some ⟨"https://x.example", false, none, none, some "Exception: kaboom"⟩ := by
  have h2 := (c4_batch_total sessionEscape ["https://x.example"]).2.1 "https://x.example"
  have h3 := (c4_batch_total sessionEscape ["https://x.example"]).2.2 "https://x.example" "kaboom" rfl
  rw [h2]
  simp only [List.mem_singleton, if_pos rfl]
  rw [h3]
  rfl

/-! Helper lemmas about the retry loop. -/

lemma retryGo_step_ok {E A : Type} (func : Nat → Except E A) (exceptions : E → Bool)
    (maxR : Nat) (base maxD : ℚ) (r attempt : Nat) (last : Option E) (a : A)
    (hf : func attempt = .ok a) :
    retryGo func exceptions maxR base maxD (r + 1) attempt last = ⟨.ok a, 1, []⟩ := by
  simp [retryGo, hf]

lemma retryGo_step_fatal {E A : Type} (func : Nat → Except E A) (exceptions : E → Bool)
    (maxR : Nat) (base maxD : ℚ) (r attempt : Nat) (last : Option E) (e : E)
    (hf : func attempt = .error e) (he : exceptions e = false) :
    retryGo func exceptions maxR base maxD (r + 1) attempt last = ⟨.err e, 1, []⟩ := by
  simp [retryGo, hf, he]

lemma retryGo_step_retry {E A : Type} (func : Nat → Except E A) (exceptions : E → Bool)
    (maxR : Nat) (base maxD : ℚ) (r attempt : Nat) (last : Option E) (e : E)
    (hf : func attempt = .error e) (he : exceptions e = true) (ha : attempt < maxR - 1) :
    retryGo func exceptions maxR base maxD (r + 1) attempt last =
      ⟨(retryGo func exceptions maxR base maxD r (attempt + 1) (some e)).outcome,
       (retryGo func exceptions maxR base maxD r (attempt + 1) (some e)).calls + 1,
       ⟨e, attempt + 1, min (base * 2 ^ attempt) maxD⟩ ::
         (retryGo func exceptions maxR base maxD r (attempt + 1) (some e)).events⟩ := by
  simp [retryGo, hf, he, ha]

lemma retryGo_step_last {E A : Type} (func : Nat → Except E A) (exceptions : E → Bool)
    (maxR : Nat) (base maxD : ℚ) (r attempt : Nat) (last : Option E) (e : E)
    (hf : func attempt = .error e) (he : exceptions e = true) (ha : ¬(attempt < maxR - 1)) :
    retryGo func exceptions maxR base maxD (r + 1) attempt last =
      ⟨(retryGo func exceptions maxR base maxD r (attempt + 1) (some e)).outcome,
       (retryGo func exceptions maxR base maxD r (attempt + 1) (some e)).calls + 1,
       (retryGo func exceptions maxR base maxD r (attempt + 1) (some e)).events⟩ := by
  simp [retryGo, hf, he, ha]

lemma retryGo_zero {E A : Type} (func : Nat → Except E A) (exceptions : E → Bool)
    (maxR : Nat) (base maxD : ℚ) (attempt : Nat) (last : Option E) :
    retryGo func exceptions maxR base maxD 0 attempt last =
      ⟨match last with | some e => .err e | none => .errNone, 0, []⟩ := by
  simp [retryGo]

lemma retryGo_calls_pos {E A : Type} (func : Nat → Except E A) (exceptions : E → Bool)
    (maxR : Nat) (base maxD : ℚ) (r attempt : Nat) (last : Option E) :
    0 < (retryGo func exceptions maxR base maxD (r + 1) attempt last).calls := by
  cases hf : func attempt with
  | ok a => simp [retryGo_step_ok func exceptions maxR base maxD r attempt last a hf]
  | error e =>
    by_cases he : exceptions e = true
    · by_cases ha : attempt < maxR - 1
      · simp [retryGo_step_retry func exceptions maxR base maxD r attempt last e hf he ha]
      · simp [retryGo_step_last func exceptions maxR base maxD r attempt last e hf he ha]
    · have he2 : exceptions e = false := by
        cases h : exceptions e with
        | false => rfl
        | true => exact absurd h he
      simp [retryGo_step_fatal func exceptions maxR base maxD r attempt last e hf he2]

lemma retryGo_events_spec {E A : Type} (func : Nat → Except E A) (exceptions : E → Bool)
    (maxR : Nat) (base maxD : ℚ) :
    ∀ (r attempt : Nat) (last : Option E), attempt + r = maxR →
      (retryGo func exceptions maxR base maxD r attempt last).events.length =
        (retryGo func exceptions maxR base maxD r attempt last).calls - 1 ∧
      ∀ i (h : i < (retryGo func exceptions maxR base maxD r attempt last).events.length),
        ∃ e, func (attempt + i) = .error e ∧ exceptions e = true ∧
          (retryGo func exceptions maxR base maxD r attempt last).events.get ⟨i, h⟩ =
            ⟨e, attempt + i + 1, min (base * 2 ^ (attempt + i)) maxD⟩ := by
  intro r
  induction r with
  | zero =>
    intro attempt last _
    refine ⟨by simp [retryGo_zero], fun i h => ?_⟩
    rw [retryGo_zero] at h
    simp at h
  | succ r ih =>
    intro attempt last hinv
    cases hf : func attempt with
    | ok a =>
      rw [retryGo_step_ok func exceptions maxR base maxD r attempt last a hf]
      exact ⟨rfl, fun i h => by simp at h⟩
    | error e =>
      by_cases he : exceptions e = true
      · by_cases ha : attempt < maxR - 1
        · have hinv2 : (attempt + 1) + r = maxR := by omega
          obtain ⟨len_eq, get_spec⟩ := ih (attempt + 1) (some e) hinv2
          have hr1 : 1 ≤ r := by omega
          have hpos : 0 < (retryGo func exceptions maxR base maxD r (attempt + 1) (some e)).calls := by
            obtain ⟨r2, rfl⟩ : ∃ r2, r = r2 + 1 := ⟨r - 1, by omega⟩
            exact retryGo_calls_pos func exceptions maxR base maxD r2 (attempt + 1) (some e)
          rw [retryGo_step_retry func exceptions maxR base maxD r attempt last e hf he ha]
          constructor
          · simp only [List.length_cons, len_eq]
            omega
          · intro i h
            cases i with
            | zero => exact ⟨e, hf, he, rfl⟩
            | succ i =>
              have hlt : i < (retryGo func exceptions maxR base maxD r (attempt + 1) (some e)).events.length := by
                simpa using Nat.lt_of_succ_lt_succ h
              obtain ⟨e2, h1, h2, h3⟩ := get_spec i hlt
              have hidx : attempt + (i + 1) = attempt + 1 + i := by omega
              refine ⟨e2, ?_, h2, ?_⟩
              · rw [hidx]
                exact h1
              · rw [show (⟨e2, attempt + (i + 1) + 1, min (base * 2 ^ (attempt + (i + 1))) maxD⟩ :
                    RetryEvent E) = ⟨e2, attempt + 1 + i + 1, min (base * 2 ^ (attempt + 1 + i)) maxD⟩
                    from by rw [hidx]]
                exact h3
        · have hr0 : r = 0 := by omega
          subst hr0
          rw [retryGo_step_last func exceptions maxR base maxD 0 attempt last e hf he ha,
            retryGo_zero]
          exact ⟨rfl, fun i h => by simp at h⟩
      · have he2 : exceptions e = false := by
          cases h : exceptions e with
          | false => rfl
          | true => exact absurd h he
        rw [retryGo_step_fatal func exceptions maxR base maxD r attempt last e hf he2]
        exact ⟨rfl, fun i h => by simp at h⟩

lemma retryGo_success_at {E A : Type} (func : Nat → Except E A) (exceptions : E → Bool)
    (maxR : Nat) (base maxD : ℚ) :
    ∀ (r attempt : Nat) (last : Option E) (k : Nat) (a : A),
      attempt + r = maxR → k < r →
      (∀ j, j < k → ∃ e, func (attempt + j) = .error e ∧ exceptions e = true) →
      func (attempt + k) = .ok a →
      (retryGo func exceptions maxR base maxD r attempt last).outcome = .ok a ∧
      (retryGo func exceptions maxR base maxD r attempt last).calls = k + 1 := by
  intro r
  induction r with
  | zero =>
    intro attempt last k a _ hk
    omega
  | succ r ih =>
    intro attempt last k a hinv hk hfail hok
    cases k with
    | zero =>
      have hf : func attempt = .ok a := hok
      rw [retryGo_step_ok func exceptions maxR base maxD r attempt last a hf]
      exact ⟨rfl, rfl⟩
    | succ k =>
      obtain ⟨e0, hf0, he0⟩ := hfail 0 (Nat.succ_pos k)
      have hf0a : func attempt = .error e0 := hf0
      have ha : attempt < maxR - 1 := by omega
      rw [retryGo_step_retry func exceptions maxR base maxD r attempt last e0 hf0a he0 ha]
      have hshift : ∀ j, j < k → ∃ e, func (attempt + 1 + j) = .error e ∧ exceptions e = true := by
        intro j hj
        obtain ⟨e2, h1, h2⟩ := hfail (j + 1) (by omega)
        refine ⟨e2, ?_, h2⟩
        rw [show attempt + 1 + j = attempt + (j + 1) from by omega]
        exact h1
      have hok2 : func (attempt + 1 + k) = .ok a := by
        rw [show attempt + 1 + k = attempt + (k + 1) from by omega]
        exact hok
      obtain ⟨ho, hc⟩ := ih (attempt + 1) (some e0) k a (by omega) (by omega) hshift hok2
      exact ⟨ho, by simp [hc]⟩

lemma retryGo_all_fail {E A : Type} (func : Nat → Except E A) (exceptions : E → Bool)
    (maxR : Nat) (base maxD : ℚ) :
    ∀ (r attempt : Nat) (last : Option E) (e : E),
      attempt + r = maxR → 1 ≤ r →
      (∀ j, j < r → ∃ ej, func (attempt + j) = .error ej ∧ exceptions ej = true) →
      func (attempt + (r - 1)) = .error e →
      (retryGo func exceptions maxR base maxD r attempt last).outcome = .err e ∧
      (retryGo func exceptions maxR base maxD r attempt last).calls = r := by
  intro r
  induction r with
  | zero =>
    intro attempt last e _ h1
    omega
  | succ r ih =>
    intro attempt last e hinv _ hfail hlast
    cases r with
    | zero =>
      have hf : func attempt = .error e := hlast
      obtain ⟨e0, hf0, he0⟩ := hfail 0 (by omega)
      have he : exceptions e = true := by
        have he0e : e0 = e := Except.error.inj ((hf0.symm.trans hf))
        rw [he0e] at he0
        exact he0
      have ha : ¬(attempt < maxR - 1) := by omega
      rw [retryGo_step_last func exceptions maxR base maxD 0 attempt last e hf he ha,
        retryGo_zero]
      exact ⟨rfl, rfl⟩
    | succ r2 =>
      obtain ⟨e0, hf0, he0⟩ := hfail 0 (by omega)
      have hf0a : func attempt = .error e0 := hf0
      have ha : attempt < maxR - 1 := by omega
      rw [retryGo_step_retry func exceptions maxR base maxD (r2 + 1) attempt last e0 hf0a he0 ha]
      have hshift : ∀ j, j < r2 + 1 → ∃ ej, func (attempt + 1 + j) = .error ej ∧ exceptions ej = true := by
        intro j hj
        obtain ⟨e2, h1, h2⟩ := hfail (j + 1) (by omega)
        refine ⟨e2, ?_, h2⟩
        rw [show attempt + 1 + j = attempt + (j + 1) from by omega]
        exact h1
      have hlast2 : func (attempt + 1 + (r2 + 1 - 1)) = .error e := by
        rw [show attempt + 1 + (r2 + 1 - 1) = attempt + (r2 + 2 - 1) from by omega]
        exact hlast
      obtain ⟨ho, hc⟩ := ih (attempt + 1) (some e0) e (by omega) (by omega) hshift hlast2
      exact ⟨ho, by simp [hc]⟩

lemma retryGo_fatal_at {E A : Type} (func : Nat → Except E A) (exceptions : E → Bool)
    (maxR : Nat) (base maxD : ℚ) :
    ∀ (r attempt : Nat) (last : Option E) (k : Nat) (e : E),
      attempt + r = maxR → k < r →
      (∀ j, j < k → ∃ ej, func (attempt + j) = .error ej ∧ exceptions ej = true) →
      func (attempt + k) = .error e → exceptions e = false →
      (retryGo func exceptions maxR base maxD r attempt last).outcome = .err e ∧
      (retryGo func exceptions maxR base maxD r attempt last).calls = k + 1 ∧
      (retryGo func exceptions maxR base maxD r attempt last).events.length = k := by
  intro r
  induction r with
  | zero =>
    intro attempt last k e _ hk
    omega
  | succ r ih =>
    intro attempt last k e hinv hk hfail hf he
    cases k with
    | zero =>
      rw [retryGo_step_fatal func exceptions maxR base maxD r attempt last e hf he]
      exact ⟨rfl, rfl, rfl⟩
    | succ k =>
      obtain ⟨e0, hf0, he0⟩ := hfail 0 (Nat.succ_pos k)
      have hf0a : func attempt = .error e0 := hf0
      have ha : attempt < maxR - 1 := by omega
      rw [retryGo_step_retry func exceptions maxR base maxD r attempt last e0 hf0a he0 ha]
      have hshift : ∀ j, j < k → ∃ ej, func (attempt + 1 + j) = .error ej ∧ exceptions ej = true := by
        intro j hj
        obtain ⟨e2, h1, h2⟩ := hfail (j + 1) (by omega)
        refine ⟨e2, ?_, h2⟩
        rw [show attempt + 1 + j = attempt + (j + 1) from by omega]
        exact h1
      have hf2 : func (attempt + 1 + k) = .error e := by
        rw [show attempt + 1 + k = attempt + (k + 1) from by omega]
        exact hf
      obtain ⟨ho, hc, hl⟩ := ih (attempt + 1) (some e0) k e (by omega) (by omega) hshift hf2 he
      exact ⟨ho, by simp [hc], by simp [hl]⟩

/-- C3: with a budget of 3 attempts, an operation that fails twice with a
retryable kind and then succeeds makes the wrapper return the success
value after exactly 3 invocations, and an operation that always fails with
a retryable kind is invoked exactly 3 times, after which the wrapper
raises exactly the failure captured on the last attempt. -/
theorem c3_retry_budget {E A : Type} (func : Nat → Except E A) (exceptions : E → Bool)
    (base_delay max_delay : ℚ) :
    (∀ e0 e1 a, func 0 = .error e0 → exceptions e0 = true →
      func 1 = .error e1 → exceptions e1 = true → func 2 = .ok a →
      (retry_with_backoff func exceptions 3 base_delay max_delay).outcome = .ok a ∧
      (retry_with_backoff func exceptions 3 base_delay max_delay).calls = 3) ∧
    (∀ e0 e1 e2, func 0 = .error e0 → exceptions e0 = true →
      func 1 = .error e1 → exceptions e1 = true →
      func 2 = .error e2 → exceptions e2 = true →
      (retry_with_backoff func exceptions 3 base_delay max_delay).outcome = .err e2 ∧
      (retry_with_backoff func exceptions 3 base_delay max_delay).calls = 3) := by
  constructor
  · intro e0 e1 a h0 he0 h1 he1 h2
    have hfail : ∀ j, j < 2 → ∃ e, func (0 + j) = .error e ∧ exceptions e = true := by
      intro j hj
      match j, hj with
      | 0, _ => exact ⟨e0, h0, he0⟩
      | 1, _ => exact ⟨e1, h1, he1⟩
    exact retryGo_success_at func exceptions 3 base_delay max_delay 3 0 none 2 a rfl
      (by omega) hfail h2
  · intro e0 e1 e2 h0 he0 h1 he1 h2 he2
    have hfail : ∀ j, j < 3 → ∃ e, func (0 + j) = .error e ∧ exceptions e = true := by
      intro j hj
      match j, hj with
      | 0, _ => exact ⟨e0, h0, he0⟩
      | 1, _ => exact ⟨e1, h1, he1⟩
      | 2, _ => exact ⟨e2, h2, he2⟩
    exact retryGo_all_fail func exceptions 3 base_delay max_delay 3 0 none e2 rfl
      (by omega) hfail h2

/-- C3 witness: the flaky operation succeeds on the third of three
attempts; the always-failing operation is invoked three times and its last
failure is raised. -/
theorem c3_witness :
    ((retry_with_backoff opFlaky exAllB 3 1 30).outcome = .ok "done" ∧
     (retry_with_backoff opFlaky exAllB 3 1 30).calls = 3) ∧
    ((retry_with_backoff opBoom exAllB 3 1 30).outcome = .err "boom" ∧
     (retry_with_backoff opBoom exAllB 3 1 30).calls = 3) :=
  ⟨(c3_retry_budget opFlaky exAllB 1 30).1 "flaky" "flaky" "done" rfl rfl rfl rfl rfl,
   (c3_retry_budget opBoom exAllB 1 30).2 "boom" "boom" "boom" rfl rfl rfl rfl rfl rfl⟩

/-- C6 (amended): the wrapper performs exactly one callback-and-sleep
event per invocation except the last (no wait after a successful attempt
or after the final failing attempt), and the event for the retryable
failure on 0-based attempt index i carries that failure, the 1-based
attempt number i + 1 passed to the callback (or default log action), and a
sleep of exactly min(base_delay * 2 ^ i, max_delay). -/
theorem c6_backoff_schedule {E A : Type} (func : Nat → Except E A) (exceptions : E → Bool)
    (max_retries : Nat) (base_delay max_delay : ℚ) :
    (retry_with_backoff func exceptions max_retries base_delay max_delay).events.length =
      (retry_with_backoff func exceptions max_retries base_delay max_delay).calls - 1 ∧
    ∀ i (h : i < (retry_with_backoff func exceptions max_retries base_delay max_delay).events.length),
      ∃ e, func i = .error e ∧ exceptions e = true ∧
        (retry_with_backoff func exceptions max_retries base_delay max_delay).events.get ⟨i, h⟩ =
          ⟨e, i + 1, min (base_delay * 2 ^ i) max_delay⟩ := by
  have h := retryGo_events_spec func exceptions max_retries base_delay max_delay
    max_retries 0 none (by omega)
  refine ⟨h.1, fun i hi => ?_⟩
  obtain ⟨e, h1, h2, h3⟩ := h.2 i hi
  rw [Nat.zero_add] at h1 h3
  exact ⟨e, h1, h2, h3⟩

/-- C6 counterexample: for an always-failing retryable operation under a
budget of 2 attempts, the single callback event carries attempt number 1
(the source passes `attempt + 1` to the callback), not the 0-based attempt
index 0 at which the failure was observed. -/
theorem c6_counterexample :
    (retry_with_backoff opBoom exAllB 2 1 30).events = [⟨"boom", 1, min (1 * 2 ^ 0) 30⟩] ∧
    (⟨"boom", 1, min (1 * 2 ^ 0) 30⟩ : RetryEvent String) ≠
      ⟨"boom", 0, min (1 * 2 ^ 0) 30⟩ := by
  refine ⟨rfl, fun h => ?_⟩
  have h2 := congrArg RetryEvent.attemptNumber h
  exact absurd h2 (by decide)

/-- C6 witness: for the always-failing operation with budget 2, the event
list has one entry (one fewer than the two calls) and its entry records
failure `boom`, attempt number 1 and delay min(1 * 2 ^ 0, 30). -/
theorem c6_witness :
    (retry_with_backoff opBoom exAllB 2 1 30).events.length =
      (retry_with_backoff opBoom exAllB 2 1 30).calls - 1 ∧
    (retry_with_backoff opBoom exAllB 2 1 30).events.get ⟨0, by decide⟩ =
      ⟨"boom", 1, min (1 * 2 ^ 0) 30⟩ := by
  refine ⟨(c6_backoff_schedule opBoom exAllB 2 1 30).1, ?_⟩
  obtain ⟨e, h1, h2, h3⟩ := (c6_backoff_schedule opBoom exAllB 2 1 30).2 0 (by decide)
  have he : e = "boom" := by
    have hb : opBoom 0 = .error "boom" := rfl
    exact (Except.error.inj (hb.symm.trans h1)).symm
  rw [he] at h3
  exact h3

/-- C7: an attempt that raises a non-retryable exception makes the wrapper
propagate exactly that exception immediately: no further invocation, no
backoff sleep and no callback for it (the event count stays at the number
of earlier retryable failures). -/
theorem c7_fail_fast {E A : Type} (func : Nat → Except E A) (exceptions : E → Bool)
    (max_retries : Nat) (base_delay max_delay : ℚ) (k : Nat) (e : E)
    (hk : k < max_retries)
    (hfail : ∀ j, j < k → ∃ ej, func j = .error ej ∧ exceptions ej = true)
    (hf : func k = .error e) (he : exceptions e = false) :
    (retry_with_backoff func exceptions max_retries base_delay max_delay).outcome = .err e ∧
    (retry_with_backoff func exceptions max_retries base_delay max_delay).calls = k + 1 ∧
    (retry_with_backoff func exceptions max_retries base_delay max_delay).events.length = k := by
  have hfail2 : ∀ j, j < k → ∃ ej, func (0 + j) = .error ej ∧ exceptions ej = true := by
    intro j hj
    obtain ⟨ej, h1, h2⟩ := hfail j hj
    exact ⟨ej, by rwa [Nat.zero_add], h2⟩
  have hf2 : func (0 + k) = .error e := by rwa [Nat.zero_add]
  exact retryGo_fatal_at func exceptions max_retries base_delay max_delay
    max_retries 0 none k e (by omega) hk hfail2 hf2 he

/-- C7 witness: an operation whose second failure is not retryable stops
after 2 calls with that failure raised and only the first failure's
backoff event recorded. -/
theorem c7_witness :
    (retry_with_backoff opMixed exSoft 3 1 30).outcome = .err "hard" ∧
    (retry_with_backoff opMixed exSoft 3 1 30).calls = 2 ∧
    (retry_with_backoff opMixed exSoft 3 1 30).events.length = 1 := by
  refine c7_fail_fast opMixed exSoft 3 1 30 1 "hard" (by omega) ?_ rfl rfl
  intro j hj
  have hj0 : j = 0 := by omega
  subst hj0
  exact ⟨"soft", rfl, rfl⟩

end Nyhets
